import Mathlib

/-!
Verification development for the book-page converter service.

The definitions below are shallow embeddings of the TypeScript source:
* `romanToArabic`, `extractPageNumber`, `retryWithBackoff` embed
  `src/server/ocrService.ts`;
* `processOCR`, `retrySingle`, `retryFailed`, `reorder` embed the `pages`
  router of the server (tRPC procedures).

JavaScript strings are modelled as `List Char` (code points; the service
only ever handles BMP text, where JS code units and code points agree),
JS numbers as `Int`/`Nat` (all quantities involved are small integers),
and `async`/`await` effects as explicit state passing.  The external
recognizer is modelled as a function from the image reference to an
`Except` outcome.
-/

namespace BookPages

/-! ## Character classes (JS regex `\d`, `\s`, the dash set, brackets) -/

/-- JS regex `\d`, i.e. the ASCII digits `0`-`9` (codes 48-57). -/
def charIsDigit (c : Char) : Bool := 48 ≤ c.toNat && c.toNat ≤ 57

/-- JS whitespace class `\s` restricted to the characters that can occur in
this service's ASCII/Latin-1 text: tab, LF, VT, FF, CR, space, NBSP. -/
def charIsSpace (c : Char) : Bool :=
  c.toNat == 9 || c.toNat == 10 || c.toNat == 11 || c.toNat == 12 ||
  c.toNat == 13 || c.toNat == 32 || c.toNat == 160

/-- JS multiline-mode line terminators: LF, CR, U+2028, U+2029. -/
def charIsLineBreak (c : Char) : Bool :=
  c.toNat == 10 || c.toNat == 13 || c.toNat == 8232 || c.toNat == 8233

/-- The dash alternatives of the `-42-` pattern: hyphen, en dash, em dash. -/
def charIsDash (c : Char) : Bool :=
  c.toNat == 45 || c.toNat == 8211 || c.toNat == 8212

/-- The Roman-numeral alphabet `[ivxlcdm]` of the regexes, case-insensitive. -/
def charIsRoman (c : Char) : Bool :=
  let n := c.toNat
  n == 105 || n == 118 || n == 120 || n == 108 || n == 99 || n == 100 || n == 109 ||
  n == 73 || n == 86 || n == 88 || n == 76 || n == 67 || n == 68 || n == 77

/-- ASCII-uppercase a code point (`String.prototype.toUpperCase` on the
alphabet this service handles). -/
def upperNat (n : Nat) : Nat := if 97 ≤ n && n ≤ 122 then n - 32 else n

/-- ASCII-lowercase a code point, used for case-insensitive matching. -/
def lowerNat (n : Nat) : Nat := if 65 ≤ n && n ≤ 90 then n + 32 else n

/-- Numeric value of a digit character. -/
def digitVal (c : Char) : Nat := c.toNat - 48

/-- Value of a digit string read left to right. -/
def digitsVal (cs : List Char) : Nat := cs.foldl (fun acc c => 10 * acc + digitVal c) 0

/-- JS `parseInt(s, 10)`: skip leading whitespace, optional sign (`-` is
code 45, `+` is code 43), then a maximal run of digits; `NaN` (here
`none`) when that run is empty. -/
def jsParseInt (cs : List Char) : Option Int :=
  let cs1 := cs.dropWhile charIsSpace
  let neg : Bool := match cs1 with | c :: _ => c.toNat == 45 | [] => false
  let signed : Bool :=
    match cs1 with | c :: _ => c.toNat == 45 || c.toNat == 43 | [] => false
  let ds := (if signed then cs1.tail else cs1).takeWhile charIsDigit
  if ds.isEmpty then none
  else if neg then some (-(digitsVal ds : Int)) else some (digitsVal ds)

/-- JS `String.prototype.trim`. -/
def jsTrim (cs : List Char) : List Char :=
  ((cs.dropWhile charIsSpace).reverse.dropWhile charIsSpace).reverse

/-- Three-way lexicographic comparison of collation-weight sequences. -/
def natLexCompare : List Nat → List Nat → Int
  | [], [] => 0
  | [], _ :: _ => -1
  | _ :: _, [] => 1
  | a :: as, b :: bs =>
    if a < b then -1
    else if b < a then 1
    else natLexCompare as bs

/-- Primary collation weight of a character on this service's label
alphabet (ASCII digits and letters): letters compare case-insensitively,
digits sort below letters, letters alphabetically — the case-folded code
point realises exactly this order. -/
def primWeight (c : Char) : Nat := lowerNat c.toNat

/-- Tertiary collation weight: the default collation places a lowercase
letter before its uppercase form when the strings differ only in case. -/
def tertWeight (c : Char) : Nat := if 65 ≤ c.toNat && c.toNat ≤ 90 then 1 else 0

/-- Models `String.prototype.localeCompare` under the default collation
for the strings this service compares — ASCII digit strings and
Roman-letter strings of either casing: compare primary weights first
(digits below letters, letters case-insensitively alphabetical), and
resolve an equal-primary pair at the tertiary level, lowercase first. -/
def localeCompare (as bs : List Char) : Int :=
  if natLexCompare (as.map primWeight) (bs.map primWeight) = 0 then
    natLexCompare (as.map tertWeight) (bs.map tertWeight)
  else natLexCompare (as.map primWeight) (bs.map primWeight)

/-- Substring test (JS `String.prototype.includes`). -/
def listContainsSub (needle hay : List Char) : Bool :=
  hay.tails.any (fun t => needle.isPrefixOf t)

/-! ## `romanToArabic` (`src/server/ocrService.ts`, lines 33-60) -/

/-- `romanMap[c]` of the source: value of an (uppercase) Roman symbol. -/
def romanCharValue (c : Char) : Option Nat :=
  match upperNat c.toNat with
  | 73 => some 1      -- I
  | 86 => some 5      -- V
  | 88 => some 10     -- X
  | 76 => some 50     -- L
  | 67 => some 100    -- C
  | 68 => some 500    -- D
  | 77 => some 1000   -- M
  | _ => none

/-- The right-to-left loop of `romanToArabic`: `cs` is the reversed numeral,
`result` and `prev` are the loop accumulators of the source. -/
def romanRun : List Char → Int → Nat → Option Int
  | [], result, _ => some result
  | c :: rest, result, prev =>
    match romanCharValue c with
    | none => none
    | some v => romanRun rest (if v < prev then result - v else result + v) v

/-- `romanToArabic` of the source (the source first uppercases its argument;
`romanCharValue` performs that uppercasing per character). -/
def romanToArabic (cs : List Char) : Option Int := romanRun cs.reverse 0 0

/-! ## `extractPageNumber` (`src/server/ocrService.ts`, lines 66-108)

Each regex of the `patterns` array is embedded as a dedicated matcher
returning the capture group of the pattern's first (leftmost) match. -/

/-- Split text at JS multiline terminators; the anchors `^`/`$` of the `/m`
patterns delimit exactly these segments. -/
def splitLines : List Char → List (List Char)
  | [] => [[]]
  | c :: rest =>
    match splitLines rest with
    | [] => [[]]
    | l :: ls => if charIsLineBreak c then [] :: l :: ls else (c :: l) :: ls

/-- Pattern 1, `/^(\d+)$/m`: the first line consisting solely of digits. -/
def pat1 (cs : List Char) : Option (List Char) :=
  (splitLines cs).findSome? fun l =>
    if !l.isEmpty && l.all charIsDigit then some l else none

/-- Pattern 2 on a single line: `^[-–—]\s*(\d+)\s*[-–—]$`. -/
def pat2Line (l : List Char) : Option (List Char) :=
  match l with
  | [] => none
  | c :: rest =>
    if charIsDash c then
      let afterWs := rest.dropWhile charIsSpace
      let ds := afterWs.takeWhile charIsDigit
      let tail1 := (afterWs.drop ds.length).dropWhile charIsSpace
      match ds, tail1 with
      | _ :: _, [d] => if charIsDash d then some ds else none
      | _, _ => none
    else none

/-- Pattern 2, `/^[-–—]\s*(\d+)\s*[-–—]$/m`: first line of that shape. -/
def pat2 (cs : List Char) : Option (List Char) := (splitLines cs).findSome? pat2Line

/-- Case-insensitive literal-prefix test; `pfx` is given in lowercase. -/
def matchesCI : List Char → List Char → Bool
  | [], _ => true
  | _ :: _, [] => false
  | p :: ps, c :: cs => lowerNat c.toNat == p.toNat && matchesCI ps cs

/-- One alternative of pattern 3 at a fixed position: the literal `pfx`
followed by `\s*(\d+)`. -/
def pat3Alt (pfx l : List Char) : Option (List Char) :=
  if matchesCI pfx l then
    let ds := ((l.drop pfx.length).dropWhile charIsSpace).takeWhile charIsDigit
    if ds.isEmpty then none else some ds
  else none

/-- Pattern 3 at a fixed position: the alternatives `page`, `pg.`, `pg`,
`p.`, `p` in the regex engine's backtracking order. -/
def pat3At (l : List Char) : Option (List Char) :=
  (pat3Alt ['p', 'a', 'g', 'e'] l).orElse fun _ =>
  (pat3Alt ['p', 'g', '.'] l).orElse fun _ =>
  (pat3Alt ['p', 'g'] l).orElse fun _ =>
  (pat3Alt ['p', '.'] l).orElse fun _ =>
  pat3Alt ['p'] l

/-- Pattern 3, `/(?:page|pg\.?|p\.?)\s*(\d+)/i`: leftmost match anywhere. -/
def pat3 : List Char → Option (List Char)
  | [] => none
  | c :: rest =>
    match pat3At (c :: rest) with
    | some ds => some ds
    | none => pat3 rest

/-- Pattern 4, `/^([ivxlcdm]+)$/im`: first line solely of Roman letters. -/
def pat4 (cs : List Char) : Option (List Char) :=
  (splitLines cs).findSome? fun l =>
    if !l.isEmpty && l.all charIsRoman then some l else none

/-- Pattern 5, `/[\[\(](\d+)[\]\)]/`: leftmost opener followed by a digit
run followed immediately by a closer. -/
def pat5 : List Char → Option (List Char)
  | [] => none
  | c :: rest =>
    if c == '[' || c == '(' then
      let ds := rest.takeWhile charIsDigit
      match ds, rest.drop ds.length with
      | _ :: _, d :: _ =>
        if d == ']' || d == ')' then some ds else pat5 rest
      | _, _ => pat5 rest
    else pat5 rest

/-- Result shape of `extractPageNumber`. -/
structure ExtractResult where
  pageNumber : Option String
  sortOrder : Option Int
  deriving DecidableEq, Repr

/-- The body of the `for (const pattern of patterns)` loop: try each
pattern's capture in order; on a capture, take the Roman branch when the
capture is over the Roman alphabet, otherwise the bounded `parseInt`
branch, and fall through to the next pattern when neither accepts. -/
def tryCaptures : List (Option (List Char)) → ExtractResult
  | [] => ⟨none, none⟩
  | none :: rest => tryCaptures rest
  | some cap :: rest =>
    if cap.isEmpty then tryCaptures rest
    else
      let captured := jsTrim cap
      let romanRes : Option Int :=
        if !captured.isEmpty && captured.all charIsRoman then romanToArabic captured
        else none
      match romanRes with
      | some arabic => ⟨some (String.mk captured), some arabic⟩
      | none =>
        match jsParseInt captured with
        | some n =>
          if 0 < n && n < 10000 then ⟨some (String.mk captured), some n⟩
          else tryCaptures rest
        | none => tryCaptures rest

/-- `extractPageNumber` of the source: the five patterns in priority
order. -/
def extractPageNumber (text : String) : ExtractResult :=
  let cs := text.toList
  tryCaptures [pat1 cs, pat2 cs, pat3 cs, pat4 cs, pat5 cs]

/-! ## Canonical Roman numerals (quantification domain of the round-trip
property): the standard greedy subtractive-notation writer. -/

/-- Value/symbol table of subtractive notation, largest first. -/
def romanDigits : List (Nat × List Char) :=
  [(100, ['c']), (90, ['x', 'c']), (50, ['l']), (40, ['x', 'l']), (10, ['x']),
   (9, ['i', 'x']), (5, ['v']), (4, ['i', 'v']), (1, ['i'])]

/-- Greedy writer with fuel (the fuel `n` suffices since every step
subtracts at least 1). -/
def toRomanAux : Nat → Nat → List Char
  | 0, _ => []
  | _ + 1, 0 => []
  | fuel + 1, n =>
    match romanDigits.find? (fun p => p.1 ≤ n) with
    | some (v, s) => s ++ toRomanAux fuel (n - v)
    | none => []

/-- The canonical lowercase subtractive-notation numeral for `n`. -/
def toRomanLower (n : Nat) : List Char := toRomanAux n n

/-- The canonical uppercase subtractive-notation numeral for `n`. -/
def toRomanUpper (n : Nat) : List Char :=
  (toRomanLower n).map fun c => Char.ofNat (upperNat c.toNat)

/-! ## `retryWithBackoff` (`src/server/ocrService.ts`, lines 113-142)

The wrapped call is modelled as a function from the attempt index to that
attempt's outcome; the trace records the result, the backoff waits issued
(in order), and the number of attempts made. -/

/-- The transient-failure test of the source: the error message contains
`500` or `Internal Server Error`. -/
def is500Error (msg : String) : Bool :=
  listContainsSub "500".toList msg.toList ||
  listContainsSub "Internal Server Error".toList msg.toList

instance {ε α : Type} [DecidableEq ε] [DecidableEq α] : DecidableEq (Except ε α) :=
  fun x y =>
    match x, y with
    | .ok a, .ok b =>
      if h : a = b then .isTrue (by rw [h]) else .isFalse (by intro he; cases he; exact h rfl)
    | .error a, .error b =>
      if h : a = b then .isTrue (by rw [h]) else .isFalse (by intro he; cases he; exact h rfl)
    | .ok _, .error _ => .isFalse (by intro he; cases he)
    | .error _, .ok _ => .isFalse (by intro he; cases he)

/-- Observable trace of one `retryWithBackoff` run. -/
structure RetryTrace (α : Type) where
  result : Except String α
  delays : List Nat
  attempts : Nat
  deriving DecidableEq, Repr

/-- The `for (attempt...)` loop of `retryWithBackoff`: `fuel` is
`maxRetries - attempt`, so `fuel = 1` is the source's
`attempt === maxRetries - 1` last-attempt test; `delays` accumulates the
waits in reverse.  The `fuel = 0` base case is the trailing
`throw lastError` of the source, reached only when `maxRetries = 0`
(where `lastError` is still `undefined`). -/
def retryGo {α : Type} (f : Nat → Except String α) (initialDelay : Nat) :
    Nat → Nat → List Nat → RetryTrace α
  | attempt, 0, delays => ⟨.error "undefined", delays.reverse, attempt⟩
  | attempt, fuel + 1, delays =>
    match f attempt with
    | .ok v => ⟨.ok v, delays.reverse, attempt + 1⟩
    | .error e =>
      if !is500Error e || fuel == 0 then ⟨.error e, delays.reverse, attempt + 1⟩
      else retryGo f initialDelay (attempt + 1) fuel (initialDelay * 2 ^ attempt :: delays)

/-- `retryWithBackoff` of the source, with its default `maxRetries = 3`
and `initialDelay = 1000`. -/
def retryWithBackoff {α : Type} (f : Nat → Except String α)
    (maxRetries : Nat := 3) (initialDelay : Nat := 1000) : RetryTrace α :=
  retryGo f initialDelay 0 maxRetries []

/-! ## Data model (pages table, projects table) -/

/-- The page status enumeration. -/
inductive PageStatus where
  | pending
  | processing
  | completed
  | failed
  deriving DecidableEq, Repr

/-- A page record; fields not read or written by the verified operations
(project id, image key, filename, confidence, creation timestamp) are
omitted.  `id` is the auto-increment identity, so ascending `id` is
creation order. -/
structure Page where
  id : Nat
  imageUrl : String
  status : PageStatus
  detectedPageNumber : Option String
  extractedText : Option String
  formattingData : Option String
  errorMessage : Option String
  sortOrder : Nat
  deriving DecidableEq, Repr

/-- The project fields the verified operations touch. -/
structure Project where
  totalPages : Nat
  processedPages : Nat
  deriving DecidableEq, Repr

/-- The result of `performOCR`: extracted text, normalized page label,
formatting payload (opaque here). -/
structure OCRResult where
  extractedText : String
  detectedPageNumber : Option String
  formattingData : String
  deriving DecidableEq, Repr

/-- Outcome of one single-page operation: the value returned (or error
thrown) to the caller, the final page and project records, and the
sequence of status values written to the page, in order. -/
structure OpResult where
  result : Except String (Option String)
  page : Page
  proj : Project
  writes : List PageStatus
  deriving DecidableEq, Repr

/-! The database helpers `updatePage` and `updatePageStatus` live in
`server/db.ts`, which is not part of the sources at hand; their effect is
modelled from the spec.

Modelled from the spec: `updatePage(id, fields)` is a partial update
writing exactly the supplied columns (visible in the callers: `reorder`
updates `sortOrder` alone without erasing OCR results); it is rendered
below as Lean structure-update expressions listing exactly the fields the
call site supplies.

Modelled from the spec: `updatePageStatus(id, status)` writes the status
column, and its optional third argument the error-text column; per spec
§4.3 the `pending/failed -> processing` transition carries no error-text
side effect, so a two-argument call leaves `errorMessage` unchanged. -/

/-- `pages.processOCR` (`src/unnamed/part_002`, lines 234-277) for a page
that was found and passed the ownership check: set `processing`, run the
recognizer, then either record the results with `completed` status and
bump the project counter, or record `failed` with the error message and
re-throw. -/
def processOCR (page : Page) (proj : Project) (ocr : Except String OCRResult) :
    OpResult :=
  match ocr with
  | .ok r =>
    { result := .ok r.detectedPageNumber
      page := { page with
        status := .completed
        extractedText := some r.extractedText
        detectedPageNumber := r.detectedPageNumber
        formattingData := some r.formattingData }
      proj := { proj with processedPages := proj.processedPages + 1 }
      writes := [.processing, .completed] }
  | .error e =>
    { result := .error e
      page := { page with status := .failed, errorMessage := some e }
      proj := proj
      writes := [.processing, .failed] }

/-- The guard message of `pages.retrySingle`. -/
def retryGuardMsg : String := "Only failed or pending pages can be processed"

/-- `pages.retrySingle` (`src/unnamed/part_002`, lines 419-469): like
`processOCR` but guarded on the current status, and clearing the error
text on success. -/
def retrySingle (page : Page) (proj : Project) (ocr : Except String OCRResult) :
    OpResult :=
  if page.status ≠ .failed ∧ page.status ≠ .pending then
    { result := .error retryGuardMsg, page := page, proj := proj, writes := [] }
  else
    match ocr with
    | .ok r =>
      { result := .ok r.detectedPageNumber
        page := { page with
          status := .completed
          extractedText := some r.extractedText
          detectedPageNumber := r.detectedPageNumber
          formattingData := some r.formattingData
          errorMessage := none }
        proj := { proj with processedPages := proj.processedPages + 1 }
        writes := [.processing, .completed] }
    | .error e =>
      { result := .error e
        page := { page with status := .failed, errorMessage := some e }
        proj := proj
        writes := [.processing, .failed] }

/-- One entry of the `results` array of `pages.retryFailed`. -/
structure RetryEntry where
  pageId : Nat
  success : Bool
  error : Option String
  deriving DecidableEq, Repr

/-- Return value and final state of `pages.retryFailed`. -/
structure BatchOut where
  results : List RetryEntry
  retriedCount : Nat
  successCount : Nat
  pages : List Page
  proj : Project
  deriving DecidableEq, Repr

/-- The body of the `for (const page of failedPages)` loop of
`retryFailed`: per-page outcome entry and updated record.  The recognizer
is a pure function of the image reference, so the strictly sequential
source loop is rendered as a map. -/
def retryFailedStep (ocr : String → Except String OCRResult) (p : Page) :
    RetryEntry × Page :=
  match ocr p.imageUrl with
  | .ok r =>
    (⟨p.id, true, none⟩,
     { p with
        status := .completed
        extractedText := some r.extractedText
        detectedPageNumber := r.detectedPageNumber
        formattingData := some r.formattingData
        errorMessage := none })
  | .error e =>
    (⟨p.id, false, some e⟩, { p with status := .failed, errorMessage := some e })

/-- `pages.retryFailed` (`src/unnamed/part_002`, lines 354-416): filter the
failed pages, retry each sequentially catching per-page failures, then
apply the success count to the project counter once. -/
def retryFailed (proj : Project) (pages : List Page)
    (ocr : String → Except String OCRResult) : BatchOut :=
  let failedPages := pages.filter fun p => p.status == .failed
  if failedPages.isEmpty then
    { results := [], retriedCount := 0, successCount := 0, pages := pages, proj := proj }
  else
    let processed := failedPages.map (retryFailedStep ocr)
    let results := processed.map Prod.fst
    let successCount := (results.filter RetryEntry.success).length
    { results := results
      retriedCount := failedPages.length
      successCount := successCount
      pages := pages.map fun p =>
        if p.status == .failed then (retryFailedStep ocr p).2 else p
      proj :=
        if 0 < successCount then
          { proj with processedPages := proj.processedPages + successCount }
        else proj }

/-! ## `pages.reorder` (`src/unnamed/part_002`, lines 280-321) -/

/-- The comparator passed to `Array.prototype.sort` by `reorder`: pages
with a detected page number first; among unnumbered pages, upload order
(`id`); among numbered pages, numeric `parseInt` order when both labels
parse, else `localeCompare` of the labels. -/
def cmpPages (a b : Page) : Int :=
  match a.detectedPageNumber, b.detectedPageNumber with
  | some _, none => -1
  | none, some _ => 1
  | none, none => (a.id : Int) - (b.id : Int)
  | some la, some lb =>
    match jsParseInt la.toList, jsParseInt lb.toList with
    | some m, some n => m - n
    | _, _ => localeCompare la.toList lb.toList

/-- The non-strict comparator order, the insertion condition of a stable
sort (ECMAScript `Array.prototype.sort` is stable). -/
def cmpLE (a b : Page) : Prop := cmpPages a b ≤ 0

instance : DecidableRel cmpLE := fun _ _ => inferInstanceAs (Decidable (_ ≤ _))

/-- The stable sort of `reorder` (ties keep input order, which is the
fetch order of the pages). -/
def sortPages (ps : List Page) : List Page := List.insertionSort cmpLE ps

/-- The write-back loop of `reorder`: `updatePage(sortedPages[i].id,
{ sortOrder: i })` for each index. -/
def assignPositions : Nat → List Page → List Page
  | _, [] => []
  | i, p :: ps => { p with sortOrder := i } :: assignPositions (i + 1) ps

/-- `pages.reorder`: sort, then write back zero-based positions. -/
def reorder (ps : List Page) : List Page := assignPositions 0 (sortPages ps)

/-- The numeric sort key of a page in the spec's sense: the ordinal the
Label Extractor resolves for its label. -/
def pageSortKey (p : Page) : Option Int :=
  match p.detectedPageNumber with
  | none => none
  | some s => (extractPageNumber s).sortOrder

/-- A page label is well formed when it is absent or has the only shapes
the Label Extractor ever stores: a nonempty digit string or a nonempty
Roman-letter string. -/
def labelWF (p : Page) : Bool :=
  match p.detectedPageNumber with
  | none => true
  | some s => !s.toList.isEmpty && (s.toList.all charIsDigit || s.toList.all charIsRoman)

/-- The numeric reading of a label used in the amended ordering statement:
defined exactly for all-digit labels. -/
def digitValue (s : String) : Option Nat :=
  if !s.toList.isEmpty && s.toList.all charIsDigit then some (digitsVal s.toList)
  else none

/-- The order `reorder` actually realises, stated on resolved keys:
numbered pages first; among them pages with digit labels ascend
numerically and precede Roman-labelled pages, which are ordered by the
locale comparison of their labels (case-insensitive alphabetical letter
order, lowercase first on case-only differences — not numeral value);
unnumbered pages follow in creation order. -/
def cmpCanon (a b : Page) : Int :=
  match a.detectedPageNumber, b.detectedPageNumber with
  | some _, none => -1
  | none, some _ => 1
  | none, none => (a.id : Int) - (b.id : Int)
  | some la, some lb =>
    match digitValue la, digitValue lb with
    | some m, some n => (m : Int) - (n : Int)
    | some _, none => -1
    | none, some _ => 1
    | none, none => localeCompare la.toList lb.toList

/-- Strict version of the amended ordering, ties resolved by creation
order (the stability of the sort). -/
def amendedLT (a b : Page) : Prop :=
  cmpCanon a b < 0 ∨ (cmpCanon a b = 0 ∧ a.id < b.id)

/-- A default page record for concrete instances. -/
def samplePage : Page :=
  { id := 1, imageUrl := "img", status := .pending, detectedPageNumber := none,
    extractedText := none, formattingData := none, errorMessage := none, sortOrder := 0 }

/-- A sample successful recognition result. -/
def sampleOCR : OCRResult :=
  { extractedText := "Lorem ipsum", detectedPageNumber := some "7", formattingData := "{}" }

/-!
# Theorems

First the claim theorems that are settled by computation, then the helper
lemmas and theorems about `reorder`, `retryWithBackoff` and the batch
coordinator.
-/

set_option maxRecDepth 40000 in
/-- C7: the Label Extractor satisfies the spec's example table:
`42` ↦ (`42`, 42); `Page 123` ↦ (`123`, 123); `iv` ↦ (`iv`, 4);
`XII` ↦ (`XII`, 12); `- 56 -` ↦ (`56`, 56); `[78]` ↦ (`78`, 78);
`99999` ↦ (null, null); `no number here` ↦ (null, null). -/
theorem extract_spec_examples :
    extractPageNumber "42" = ⟨some "42", some 42⟩ ∧
    extractPageNumber "Page 123" = ⟨some "123", some 123⟩ ∧
    extractPageNumber "iv" = ⟨some "iv", some 4⟩ ∧
    extractPageNumber "XII" = ⟨some "XII", some 12⟩ ∧
    extractPageNumber "- 56 -" = ⟨some "56", some 56⟩ ∧
    extractPageNumber "[78]" = ⟨some "78", some 78⟩ ∧
    extractPageNumber "99999" = ⟨none, none⟩ ∧
    extractPageNumber "no number here" = ⟨none, none⟩ := by
  decide

/-- C8: for every integer 1..100, the canonical subtractive-notation Roman
numeral (in either casing) is extracted back to exactly that integer as
the sort key, with the input string itself, casing preserved, as the
label. -/
theorem extract_roman_roundtrip (n : Nat) (h1 : 1 ≤ n) (h2 : n ≤ 100) :
    extractPageNumber (String.mk (toRomanLower n)) =
      ⟨some (String.mk (toRomanLower n)), some (n : Int)⟩ ∧
    extractPageNumber (String.mk (toRomanUpper n)) =
      ⟨some (String.mk (toRomanUpper n)), some (n : Int)⟩ := by
  have key : ∀ m : Nat, m < 101 → 1 ≤ m →
      extractPageNumber (String.mk (toRomanLower m)) =
        ⟨some (String.mk (toRomanLower m)), some (m : Int)⟩ ∧
      extractPageNumber (String.mk (toRomanUpper m)) =
        ⟨some (String.mk (toRomanUpper m)), some (m : Int)⟩ := by
    set_option maxRecDepth 200000 in decide
  exact key n (by omega) h1

/-- C8 witness at `n = 4`: `iv` and `IV` both resolve to 4. -/
theorem extract_roman_roundtrip_witness :
    1 ≤ 4 ∧ 4 ≤ 100 ∧
    (extractPageNumber (String.mk (toRomanLower 4)) =
      ⟨some (String.mk (toRomanLower 4)), some (4 : Int)⟩ ∧
     extractPageNumber (String.mk (toRomanUpper 4)) =
      ⟨some (String.mk (toRomanUpper 4)), some (4 : Int)⟩) :=
  ⟨by decide, by decide, extract_roman_roundtrip 4 (by decide) (by decide)⟩

set_option maxRecDepth 40000 in
/-- C10: the exclusive `(0, 10000)` bound guards only the `parseInt`
branch: a line of ten `m` characters is accepted through the Roman branch
with sort key 10000, while the digit string `10000` is rejected. -/
theorem extract_roman_bypasses_range_bound :
    extractPageNumber "mmmmmmmmmm" = ⟨some "mmmmmmmmmm", some 10000⟩ ∧
    (10000 : Int) ≤ 10000 ∧
    extractPageNumber "10000" = ⟨none, none⟩ := by
  decide

/-- C6 (code bug): a page that previously failed and still carries error
text, reprocessed successfully through `processOCR`, ends `completed`
with the stale error message still present — the completed-page update of
`processOCR` does not clear `errorMessage` (the retry paths do). -/
theorem processOCR_keeps_stale_error :
    (processOCR
        { samplePage with status := .failed,
                          errorMessage := some "OCR processing failed: boom" }
        { totalPages := 1, processedPages := 0 }
        (.ok sampleOCR)).page.status = .completed ∧
    (processOCR
        { samplePage with status := .failed,
                          errorMessage := some "OCR processing failed: boom" }
        { totalPages := 1, processedPages := 0 }
        (.ok sampleOCR)).page.errorMessage = some "OCR processing failed: boom" := by
  exact ⟨rfl, rfl⟩

/-- C4 counterexample: `processOCR` performs no status check, so a
process request on a `completed` page is not rejected: it succeeds,
writes `processing` then `completed`, and increments the processed-pages
counter again. -/
theorem processOCR_completed_not_rejected :
    (processOCR { samplePage with status := .completed, extractedText := some "old" }
        { totalPages := 1, processedPages := 5 } (.ok sampleOCR)).result =
      .ok (some "7") ∧
    (processOCR { samplePage with status := .completed, extractedText := some "old" }
        { totalPages := 1, processedPages := 5 } (.ok sampleOCR)).writes =
      [.processing, .completed] ∧
    (processOCR { samplePage with status := .completed, extractedText := some "old" }
        { totalPages := 1, processedPages := 5 } (.ok sampleOCR)).proj.processedPages = 6 := by
  exact ⟨rfl, rfl, rfl⟩

/-- C4 (amended): `retrySingle` transitions a page to `processing` only
from `pending` or `failed` and rejects any other status with the
invalid-operation error, leaving page and project untouched and writing
nothing; `processOCR` applies no status check and writes `processing`
for a page of any status. -/
theorem retry_transition_guard (page : Page) (proj : Project)
    (ocr : Except String OCRResult) :
    (page.status ≠ .pending ∧ page.status ≠ .failed →
      retrySingle page proj ocr =
        { result := .error retryGuardMsg, page := page, proj := proj, writes := [] }) ∧
    (page.status = .pending ∨ page.status = .failed →
      (retrySingle page proj ocr).writes.head? = some .processing) ∧
    (processOCR page proj ocr).writes.head? = some .processing := by
  refine ⟨fun h => ?_, fun h => ?_, ?_⟩
  · unfold retrySingle
    rw [if_pos ⟨h.2, h.1⟩]
  · unfold retrySingle
    rw [if_neg (by rcases h with h | h <;> simp [h])]
    cases ocr <;> rfl
  · unfold processOCR
    cases ocr <;> rfl

/-- C4 witness: a completed page is rejected unchanged; a failed page is
moved to `processing`. -/
theorem retry_transition_guard_witness :
    (({ samplePage with status := .completed } : Page).status ≠ .pending ∧
      ({ samplePage with status := .completed } : Page).status ≠ .failed) ∧
    retrySingle { samplePage with status := .completed }
        { totalPages := 1, processedPages := 1 } (.ok sampleOCR) =
      { result := .error retryGuardMsg,
        page := { samplePage with status := .completed },
        proj := { totalPages := 1, processedPages := 1 }, writes := [] } ∧
    (retrySingle { samplePage with status := .failed }
        { totalPages := 1, processedPages := 0 } (.ok sampleOCR)).writes.head? =
      some .processing := by
  refine ⟨by decide, ?_, ?_⟩
  · exact (retry_transition_guard { samplePage with status := .completed }
      { totalPages := 1, processedPages := 1 } (.ok sampleOCR)).1 (by decide)
  · exact ((retry_transition_guard { samplePage with status := .failed }
      { totalPages := 1, processedPages := 0 } (.ok sampleOCR)).2.1 (Or.inr rfl))

/-- C5: every escalated recognition failure is handled by the single-page
operation before it surfaces: the page is written `failed` with the
failure's message as error text, the project counter is untouched, and
the error the caller sees is exactly that recorded message (for
`retrySingle`, on the statuses from which the operation runs). -/
theorem recognition_failure_recorded (page : Page) (proj : Project) (e : String) :
    ((processOCR page proj (.error e)).page.status = .failed ∧
     (processOCR page proj (.error e)).page.errorMessage = some e ∧
     (processOCR page proj (.error e)).result = .error e ∧
     (processOCR page proj (.error e)).proj = proj) ∧
    (page.status = .pending ∨ page.status = .failed →
      (retrySingle page proj (.error e)).page.status = .failed ∧
      (retrySingle page proj (.error e)).page.errorMessage = some e ∧
      (retrySingle page proj (.error e)).result = .error e) := by
  refine ⟨⟨rfl, rfl, rfl, rfl⟩, fun h => ?_⟩
  unfold retrySingle
  rw [if_neg (by rcases h with h | h <;> simp [h])]
  exact ⟨rfl, rfl, rfl⟩

/-- C5 witness at a failed page with a concrete error message. -/
theorem recognition_failure_recorded_witness :
    (({ samplePage with status := .failed } : Page).status = .pending ∨
      ({ samplePage with status := .failed } : Page).status = .failed) ∧
    (retrySingle { samplePage with status := .failed }
        { totalPages := 1, processedPages := 0 } (.error "OCR processing failed: 502")).page.errorMessage =
      some "OCR processing failed: 502" := by
  refine ⟨Or.inr rfl, ?_⟩
  exact ((recognition_failure_recorded { samplePage with status := .failed }
    { totalPages := 1, processedPages := 0 } "OCR processing failed: 502").2
      (Or.inr rfl)).2.1

/-- C2: the batch retry coordinator reports exactly one entry per failed
page, in order — a success entry when recognition succeeded and a failure
entry carrying the error text otherwise (so one page's failure never
aborts the rest) — and the project's processed-pages counter grows by
exactly the number of successes, applied once for the whole batch. -/
theorem retryFailed_report (proj : Project) (pages : List Page)
    (ocr : String → Except String OCRResult) :
    (retryFailed proj pages ocr).results =
      (pages.filter fun p => p.status == .failed).map (fun p =>
        match ocr p.imageUrl with
        | .ok _ => ⟨p.id, true, none⟩
        | .error e => ⟨p.id, false, some e⟩) ∧
    (retryFailed proj pages ocr).results.length =
      (pages.filter fun p => p.status == .failed).length ∧
    (retryFailed proj pages ocr).proj.processedPages =
      proj.processedPages +
        ((retryFailed proj pages ocr).results.filter RetryEntry.success).length := by
  have hstep : ∀ p : Page,
      (retryFailedStep ocr p).1 =
        (match ocr p.imageUrl with
          | .ok _ => (⟨p.id, true, none⟩ : RetryEntry)
          | .error e => ⟨p.id, false, some e⟩) := by
    intro p
    cases h : ocr p.imageUrl <;> simp [retryFailedStep, h]
  unfold retryFailed
  by_cases h : (pages.filter fun p => p.status == .failed).isEmpty
  · rw [if_pos h]
    rw [List.isEmpty_iff] at h
    simp [h]
  · rw [if_neg h]
    dsimp only
    refine ⟨?_, ?_, ?_⟩
    · rw [List.map_map]
      exact List.map_congr_left fun p _ => hstep p
    · simp
    · by_cases hsc :
        0 < (List.filter RetryEntry.success
          (List.map Prod.fst
            (List.map (retryFailedStep ocr)
              (List.filter (fun p => p.status == PageStatus.failed) pages)))).length
      · rw [if_pos hsc]
      · rw [if_neg hsc]
        omega

/-- Attempts made by the retry loop never exceed the remaining fuel. -/
theorem retryGo_attempts_le {α : Type} (f : Nat → Except String α) (d : Nat) :
    ∀ (fuel attempt : Nat) (delays : List Nat),
      (retryGo f d attempt fuel delays).attempts ≤ attempt + fuel := by
  intro fuel
  induction fuel with
  | zero => intro a l; simp [retryGo]
  | succ n ih =>
    intro a l
    rw [retryGo]
    cases hf : f a with
    | ok v => simp
    | error e =>
      dsimp only
      by_cases hc : (!is500Error e || n == 0) = true
      · rw [if_pos hc]
        show a + 1 ≤ a + (n + 1)
        omega
      · rw [if_neg hc]
        have := ih (a + 1) (d * 2 ^ a :: l)
        omega

/-- C3: the recognition invoker makes at most `maxRetries` attempts; a
non-transient first failure is propagated at once with no delay; a
transient failure followed by a non-transient one stops after the single
backoff wait; transient failures on attempts 1 and 2 followed by success
on attempt 3 give a successful result after exactly the two delays
`initialDelay * 2 ^ 0` and `initialDelay * 2 ^ 1` (1000ms then 2000ms
with the defaults, each double the previous); and when all 3 attempts
fail transiently the last failure is propagated after those same two
delays. -/
theorem retryWithBackoff_spec :
    (∀ (α : Type) (f : Nat → Except String α) (m d : Nat),
      (retryWithBackoff f m d).attempts ≤ m) ∧
    (∀ (α : Type) (f : Nat → Except String α) (d : Nat) (e : String),
      f 0 = .error e → is500Error e = false →
      retryWithBackoff f 3 d = ⟨.error e, [], 1⟩) ∧
    (∀ (α : Type) (f : Nat → Except String α) (d : Nat) (e0 e1 : String),
      f 0 = .error e0 → is500Error e0 = true →
      f 1 = .error e1 → is500Error e1 = false →
      retryWithBackoff f 3 d = ⟨.error e1, [d * 2 ^ 0], 2⟩) ∧
    (∀ (α : Type) (f : Nat → Except String α) (d : Nat) (e0 e1 : String) (v : α),
      f 0 = .error e0 → is500Error e0 = true →
      f 1 = .error e1 → is500Error e1 = true →
      f 2 = .ok v →
      retryWithBackoff f 3 d = ⟨.ok v, [d * 2 ^ 0, d * 2 ^ 1], 3⟩) ∧
    (∀ (α : Type) (f : Nat → Except String α) (d : Nat) (e0 e1 e2 : String),
      f 0 = .error e0 → is500Error e0 = true →
      f 1 = .error e1 → is500Error e1 = true →
      f 2 = .error e2 →
      retryWithBackoff f 3 d = ⟨.error e2, [d * 2 ^ 0, d * 2 ^ 1], 3⟩) := by
  refine ⟨fun α f m d => by simpa [retryWithBackoff] using retryGo_attempts_le f d m 0 [], ?_, ?_, ?_, ?_⟩
  · intro α f d e h0 t0
    simp [retryWithBackoff, retryGo, h0, t0]
  · intro α f d e0 e1 h0 t0 h1 t1
    simp [retryWithBackoff, retryGo, h0, t0, h1, t1]
  · intro α f d e0 e1 v h0 t0 h1 t1 h2
    simp [retryWithBackoff, retryGo, h0, t0, h1, t1, h2]
  · intro α f d e0 e1 e2 h0 t0 h1 t1 h2
    simp [retryWithBackoff, retryGo, h0, t0, h1, t1, h2]

/-- C3 witness: with the default delay, two transient 500 failures then a
success give the successful result with the delays 1000 then 2000; a
permanent failure is not retried. -/
theorem retryWithBackoff_spec_witness :
    (fun i : Nat => if i == 0 then .error "500 upstream" else
              if i == 1 then .error "Internal Server Error" else
              .ok (42 : Nat)) 0 = Except.error "500 upstream" ∧
    is500Error "500 upstream" = true ∧
    retryWithBackoff
      (fun i : Nat => if i == 0 then .error "500 upstream" else
                if i == 1 then .error "Internal Server Error" else
                .ok (42 : Nat)) 3 1000 = ⟨.ok 42, [1000, 2000], 3⟩ ∧
    retryWithBackoff (fun _ => (.error "bad image" : Except String Nat)) 3 1000 =
      ⟨.error "bad image", [], 1⟩ ∧
    (retryWithBackoff (fun _ => (.error "500" : Except String Nat)) 3 1000).attempts ≤ 3 := by
  refine ⟨rfl, by decide, ?_, ?_, ?_⟩
  · have h := retryWithBackoff_spec.2.2.2.1 Nat
      (fun i : Nat => if i == 0 then .error "500 upstream" else
                if i == 1 then .error "Internal Server Error" else
                .ok (42 : Nat)) 1000 "500 upstream" "Internal Server Error" 42
      rfl (by decide) rfl (by decide) rfl
    simpa using h
  · have h := retryWithBackoff_spec.2.1 Nat
      (fun _ => (.error "bad image" : Except String Nat)) 1000 "bad image" rfl (by decide)
    exact h
  · exact retryWithBackoff_spec.1 Nat _ 3 1000

set_option maxRecDepth 40000 in
/-- C1 counterexample: two pages whose labels are the Roman numerals `v`
(sort key 5) and `ix` (sort key 9), created in that order, are reordered
with `ix` before `v`: the comparator falls back to string comparison for
labels `parseInt` cannot read, so pages with non-null sort keys are not
numerically ascending. -/
theorem reorder_roman_counterexample :
    pageSortKey { samplePage with id := 1, detectedPageNumber := some "v" } = some 5 ∧
    pageSortKey { samplePage with id := 2, detectedPageNumber := some "ix" } = some 9 ∧
    (reorder [{ samplePage with id := 1, detectedPageNumber := some "v" },
              { samplePage with id := 2, detectedPageNumber := some "ix" }]).map Page.id =
      [2, 1] ∧
    (reorder [{ samplePage with id := 1, detectedPageNumber := some "v" },
              { samplePage with id := 2, detectedPageNumber := some "ix" }]).map Page.sortOrder =
      [0, 1] := by
  decide

/-! ## Order-theoretic facts about the `reorder` comparator -/

/-- Weight comparison is antisymmetric in sign. -/
theorem natLexCompare_neg : ∀ as bs : List Nat, natLexCompare bs as = -natLexCompare as bs
  | [], [] => by simp [natLexCompare]
  | [], _ :: _ => by simp [natLexCompare]
  | _ :: _, [] => by simp [natLexCompare]
  | a :: as, b :: bs => by
    simp only [natLexCompare]
    split_ifs <;> first | omega | exact natLexCompare_neg as bs

/-- Weight comparison is transitive on the non-positive side. -/
theorem natLexCompare_le_trans : ∀ as bs cs : List Nat,
    natLexCompare as bs ≤ 0 → natLexCompare bs cs ≤ 0 → natLexCompare as cs ≤ 0
  | [], bs, cs, _, _ => by cases cs <;> simp [natLexCompare]
  | _ :: _, [], _, h1, _ => by simp [natLexCompare] at h1
  | _ :: _, _ :: _, [], _, h2 => by simp [natLexCompare] at h2
  | a :: as, b :: bs, c :: cs, h1, h2 => by
    simp only [natLexCompare] at h1 h2 ⊢
    split_ifs at h1 h2 ⊢ <;>
      first
        | omega
        | exact natLexCompare_le_trans as bs cs (by omega) (by omega)

/-- Weight comparison is zero exactly on equal sequences. -/
theorem natLexCompare_eq_zero : ∀ as bs : List Nat, natLexCompare as bs = 0 ↔ as = bs
  | [], [] => by simp [natLexCompare]
  | [], _ :: _ => by simp [natLexCompare]
  | _ :: _, [] => by simp [natLexCompare]
  | a :: as, b :: bs => by
    simp only [natLexCompare, List.cons.injEq]
    split_ifs with h1 h2
    · constructor
      · intro h
        exact absurd h (by decide)
      · rintro ⟨rfl, -⟩
        omega
    · constructor
      · intro h
        exact absurd h (by decide)
      · rintro ⟨rfl, -⟩
        omega
    · have hab : a = b := by omega
      simp [hab, natLexCompare_eq_zero as bs]

/-- The locale comparison is antisymmetric in sign. -/
theorem localeCompare_neg (as bs : List Char) : localeCompare bs as = -localeCompare as bs := by
  unfold localeCompare
  by_cases h : natLexCompare (as.map primWeight) (bs.map primWeight) = 0
  · have h' : natLexCompare (bs.map primWeight) (as.map primWeight) = 0 := by
      rw [natLexCompare_neg (as.map primWeight) (bs.map primWeight), h]
      simp
    rw [if_pos h, if_pos h']
    exact natLexCompare_neg _ _
  · have h' : ¬ natLexCompare (bs.map primWeight) (as.map primWeight) = 0 := by
      rw [natLexCompare_neg (as.map primWeight) (bs.map primWeight)]
      omega
    rw [if_neg h', if_neg h]
    exact natLexCompare_neg _ _

/-- The locale comparison is transitive on the non-positive side. -/
theorem localeCompare_le_trans (as bs cs : List Char)
    (h1 : localeCompare as bs ≤ 0) (h2 : localeCompare bs cs ≤ 0) :
    localeCompare as cs ≤ 0 := by
  unfold localeCompare at h1 h2 ⊢
  by_cases hab : natLexCompare (as.map primWeight) (bs.map primWeight) = 0 <;>
    by_cases hbc : natLexCompare (bs.map primWeight) (cs.map primWeight) = 0
  · have e1 := (natLexCompare_eq_zero _ _).mp hab
    have e2 := (natLexCompare_eq_zero _ _).mp hbc
    have hac : natLexCompare (as.map primWeight) (cs.map primWeight) = 0 :=
      (natLexCompare_eq_zero _ _).mpr (e1.trans e2)
    rw [if_pos hab] at h1
    rw [if_pos hbc] at h2
    rw [if_pos hac]
    exact natLexCompare_le_trans _ _ _ h1 h2
  · have e1 := (natLexCompare_eq_zero _ _).mp hab
    have hac : natLexCompare (as.map primWeight) (cs.map primWeight) =
        natLexCompare (bs.map primWeight) (cs.map primWeight) := by rw [e1]
    rw [if_neg hbc] at h2
    rw [if_neg (by rw [hac]; exact hbc), hac]
    exact h2
  · have e2 := (natLexCompare_eq_zero _ _).mp hbc
    have hac : natLexCompare (as.map primWeight) (cs.map primWeight) =
        natLexCompare (as.map primWeight) (bs.map primWeight) := by rw [e2]
    rw [if_neg hab] at h1
    rw [if_neg (by rw [hac]; exact hab), hac]
    exact h1
  · rw [if_neg hab] at h1
    rw [if_neg hbc] at h2
    have hle : natLexCompare (as.map primWeight) (cs.map primWeight) ≤ 0 :=
      natLexCompare_le_trans _ _ _ h1 h2
    have hne : ¬ natLexCompare (as.map primWeight) (cs.map primWeight) = 0 := by
      intro h0
      have e := (natLexCompare_eq_zero _ _).mp h0
      have hflip : natLexCompare (bs.map primWeight) (cs.map primWeight) =
          -natLexCompare (as.map primWeight) (bs.map primWeight) := by
        rw [← e]
        exact natLexCompare_neg _ _
      omega
    rw [if_neg hne]
    exact hle

/-- A digit string compares below a Roman-letter string of either case:
digit primary weights lie below every Roman letter's. -/
theorem localeCompare_digit_roman (ds rs : List Char)
    (hd1 : ds ≠ []) (hd2 : ds.all charIsDigit)
    (hr1 : rs ≠ []) (hr2 : rs.all charIsRoman) :
    localeCompare ds rs = -1 := by
  obtain ⟨d, dt, rfl⟩ := List.exists_cons_of_ne_nil hd1
  obtain ⟨r, rt, rfl⟩ := List.exists_cons_of_ne_nil hr1
  have h1 : charIsDigit d = true := by
    have h := hd2
    simp [List.all_cons] at h
    exact h.1
  have h2 : charIsRoman r = true := by
    have h := hr2
    simp [List.all_cons] at h
    exact h.1
  have hdc : 48 ≤ d.toNat ∧ d.toNat ≤ 57 := by
    simp [charIsDigit] at h1
    exact h1
  have hpd : primWeight d = d.toNat := by
    unfold primWeight lowerNat
    rw [if_neg]
    simp
    omega
  have hrc : r.toNat = 105 ∨ r.toNat = 118 ∨ r.toNat = 120 ∨ r.toNat = 108 ∨
      r.toNat = 99 ∨ r.toNat = 100 ∨ r.toNat = 109 ∨ r.toNat = 73 ∨ r.toNat = 86 ∨
      r.toNat = 88 ∨ r.toNat = 76 ∨ r.toNat = 67 ∨ r.toNat = 68 ∨ r.toNat = 77 := by
    simp [charIsRoman] at h2
    tauto
  have hpr : 99 ≤ primWeight r := by
    unfold primWeight lowerNat
    rcases hrc with h|h|h|h|h|h|h|h|h|h|h|h|h|h <;> rw [h] <;> decide
  have hlt : primWeight d < primWeight r := by omega
  simp [localeCompare, natLexCompare, hlt]

/-- `takeWhile` keeps a list all of whose elements satisfy the predicate. -/
theorem takeWhile_of_all {p : Char → Bool} :
    ∀ l : List Char, l.all p → l.takeWhile p = l
  | [], _ => rfl
  | c :: t, h => by
    have h' := h
    simp [List.all_cons] at h'
    simp [List.takeWhile_cons, h'.1, takeWhile_of_all t (by rw [List.all_eq_true]; exact h'.2)]

/-- `parseInt` on a nonempty all-digit string reads the whole string. -/
theorem jsParseInt_digits (ds : List Char) (h1 : ds ≠ []) (h2 : ds.all charIsDigit) :
    jsParseInt ds = some ((digitsVal ds : Int)) := by
  obtain ⟨d, t, rfl⟩ := List.exists_cons_of_ne_nil h1
  have hd : charIsDigit d = true := by
    have h := h2
    simp [List.all_cons] at h
    exact h.1
  have hcodes : 48 ≤ d.toNat ∧ d.toNat ≤ 57 := by
    simp [charIsDigit] at hd
    exact hd
  have hns : charIsSpace d = false := by
    simp [charIsSpace]
    omega
  have h45 : (d.toNat == 45) = false := by simp; omega
  have h43 : (d.toNat == 43) = false := by simp; omega
  unfold jsParseInt
  simp only [List.dropWhile_cons, hns, Bool.false_eq_true, if_false, h45, h43,
    Bool.or_self, Bool.false_or, takeWhile_of_all _ h2]
  simp

/-- `parseInt` on a nonempty Roman-letter string is `NaN`. -/
theorem jsParseInt_roman (rs : List Char) (h1 : rs ≠ []) (h2 : rs.all charIsRoman) :
    jsParseInt rs = none := by
  obtain ⟨r, t, rfl⟩ := List.exists_cons_of_ne_nil h1
  have hr : charIsRoman r = true := by
    have h := h2
    simp [List.all_cons] at h
    exact h.1
  have hcodes : r.toNat = 105 ∨ r.toNat = 118 ∨ r.toNat = 120 ∨ r.toNat = 108 ∨
      r.toNat = 99 ∨ r.toNat = 100 ∨ r.toNat = 109 ∨ r.toNat = 73 ∨ r.toNat = 86 ∨
      r.toNat = 88 ∨ r.toNat = 76 ∨ r.toNat = 67 ∨ r.toNat = 68 ∨ r.toNat = 77 := by
    simp [charIsRoman] at hr
    tauto
  have hns : charIsSpace r = false := by
    simp [charIsSpace]
    omega
  have hnd : charIsDigit r = false := by
    simp [charIsDigit]
    omega
  have h45 : (r.toNat == 45) = false := by simp; omega
  have h43 : (r.toNat == 43) = false := by simp; omega
  unfold jsParseInt
  simp only [List.dropWhile_cons, hns, Bool.false_eq_true, if_false, h45, h43,
    Bool.or_self, Bool.false_or, List.takeWhile_cons, hnd]
  simp

/-- `digitValue` on a nonempty all-digit label. -/
theorem digitValue_of_digits (s : String) (h1 : s.toList ≠ [])
    (h2 : s.toList.all charIsDigit) :
    digitValue s = some (digitsVal s.toList) := by
  have hc : (!s.toList.isEmpty && s.toList.all charIsDigit) = true := by
    rw [Bool.and_eq_true]
    refine ⟨?_, h2⟩
    rw [Bool.not_eq_true', List.isEmpty_eq_false]
    exact h1
  unfold digitValue
  rw [if_pos hc]

/-- `digitValue` on a nonempty Roman-letter label is undefined. -/
theorem digitValue_of_roman (s : String) (h1 : s.toList ≠ [])
    (h2 : s.toList.all charIsRoman) :
    digitValue s = none := by
  obtain ⟨r, t, he⟩ := List.exists_cons_of_ne_nil h1
  have hr : charIsRoman r = true := by
    have h := h2
    rw [he] at h
    simp [List.all_cons] at h
    exact h.1
  have hnd : charIsDigit r = false := by
    simp [charIsRoman] at hr
    simp [charIsDigit]
    omega
  unfold digitValue
  rw [if_neg]
  rw [he]
  simp [List.all_cons, hnd]

/-- On well-formed pages the source comparator agrees with the canonical
key order. -/
theorem cmpPages_eq_canon {a b : Page} (ha : labelWF a = true) (hb : labelWF b = true) :
    cmpPages a b = cmpCanon a b := by
  unfold cmpPages cmpCanon
  unfold labelWF at ha hb
  cases hA : a.detectedPageNumber with
  | none =>
    cases hB : b.detectedPageNumber <;> rfl
  | some la =>
    cases hB : b.detectedPageNumber with
    | none => rfl
    | some lb =>
      rw [hA] at ha
      rw [hB] at hb
      simp only [Bool.and_eq_true, Bool.not_eq_true', Bool.or_eq_true] at ha hb
      obtain ⟨hane, had⟩ := ha
      obtain ⟨hbne, hbd⟩ := hb
      have hane' : la.toList ≠ [] := by
        intro h
        rw [h] at hane
        simp at hane
      have hbne' : lb.toList ≠ [] := by
        intro h
        rw [h] at hbne
        simp at hbne
      dsimp only
      rcases had with had | had <;> rcases hbd with hbd | hbd
      · rw [jsParseInt_digits _ hane' had, jsParseInt_digits _ hbne' hbd,
          digitValue_of_digits _ hane' had, digitValue_of_digits _ hbne' hbd]
      · rw [jsParseInt_digits _ hane' had, jsParseInt_roman _ hbne' hbd,
          digitValue_of_digits _ hane' had, digitValue_of_roman _ hbne' hbd]
        dsimp only
        exact localeCompare_digit_roman _ _ hane' had hbne' hbd
      · rw [jsParseInt_roman _ hane' had, jsParseInt_digits _ hbne' hbd,
          digitValue_of_roman _ hane' had, digitValue_of_digits _ hbne' hbd]
        dsimp only
        rw [localeCompare_neg, localeCompare_digit_roman _ _ hbne' hbd hane' had]
        decide
      · rw [jsParseInt_roman _ hane' had, jsParseInt_roman _ hbne' hbd,
          digitValue_of_roman _ hane' had, digitValue_of_roman _ hbne' hbd]

/-- The source comparator is antisymmetric in sign. -/
theorem cmpPages_neg (a b : Page) : cmpPages b a = -cmpPages a b := by
  unfold cmpPages
  rcases ha : a.detectedPageNumber with _ | la <;>
    rcases hb : b.detectedPageNumber with _ | lb
  · simp [neg_sub]
  · simp
  · simp
  · dsimp only
    rcases hm : jsParseInt la.toList with _ | m <;>
      rcases hn : jsParseInt lb.toList with _ | n
    · simpa using localeCompare_neg la.toList lb.toList
    · simpa using localeCompare_neg la.toList lb.toList
    · simpa using localeCompare_neg la.toList lb.toList
    · simp [neg_sub]

/-- The canonical key order is antisymmetric in sign. -/
theorem cmpCanon_neg (a b : Page) : cmpCanon b a = -cmpCanon a b := by
  unfold cmpCanon
  rcases ha : a.detectedPageNumber with _ | la <;>
    rcases hb : b.detectedPageNumber with _ | lb
  · simp [neg_sub]
  · simp
  · simp
  · dsimp only
    rcases hm : digitValue la with _ | m <;>
      rcases hn : digitValue lb with _ | n
    · simpa using localeCompare_neg la.toList lb.toList
    · simp
    · simp
    · simp [neg_sub]

/-- The canonical key order is transitive on the non-positive side. -/
theorem cmpCanon_le_trans {a b c : Page}
    (h1 : cmpCanon a b ≤ 0) (h2 : cmpCanon b c ≤ 0) : cmpCanon a c ≤ 0 := by
  unfold cmpCanon at h1 h2 ⊢
  rcases ha : a.detectedPageNumber with _ | la <;>
    rcases hb : b.detectedPageNumber with _ | lb <;>
    rcases hc : c.detectedPageNumber with _ | lc <;>
    rw [ha, hb] at h1 <;> rw [hb, hc] at h2 <;>
    dsimp only at h1 h2 ⊢
  · omega
  · omega
  · omega
  · omega
  · omega
  · omega
  · omega
  · rcases hm : digitValue la with _ | m <;>
      rcases hn : digitValue lb with _ | n <;>
      rcases hk : digitValue lc with _ | k <;>
      rw [hm, hn] at h1 <;> rw [hn, hk] at h2 <;>
      dsimp only at h1 h2 ⊢
    · exact localeCompare_le_trans la.toList lb.toList lc.toList h1 h2
    · omega
    · omega
    · omega
    · omega
    · omega
    · omega
    · omega

/-- The weak form of the amended strict order. -/
theorem amendedLT_le {a b : Page} (h : amendedLT a b) : cmpCanon a b ≤ 0 := by
  unfold amendedLT at h
  omega

/-- Inserting a page below all identities of an `amendedLT`-sorted list
keeps the list sorted (the heart of the stability argument: ties are
decided by the identity hypothesis). -/
theorem pairwise_orderedInsert_amended (x : Page) (l : List Page)
    (hwx : labelWF x = true) (hwl : ∀ p ∈ l, labelWF p = true)
    (hid : ∀ p ∈ l, x.id < p.id)
    (hl : l.Pairwise amendedLT) :
    (List.orderedInsert cmpLE x l).Pairwise amendedLT := by
  induction l with
  | nil => simp [List.orderedInsert]
  | cons b t ih =>
    rw [List.orderedInsert]
    have hwb : labelWF b = true := hwl b (by simp)
    by_cases h : cmpLE x b
    · rw [if_pos h]
      have hxb : cmpCanon x b ≤ 0 := by
        rw [← cmpPages_eq_canon hwx hwb]
        exact h
      refine List.pairwise_cons.mpr ⟨?_, hl⟩
      intro y hy
      rcases List.mem_cons.mp hy with rfl | hy
      · unfold amendedLT
        rcases lt_or_eq_of_le hxb with h' | h'
        · exact Or.inl h'
        · exact Or.inr ⟨h', hid y (by simp)⟩
      · have hby : amendedLT b y := (List.pairwise_cons.mp hl).1 y hy
        have hxy : cmpCanon x y ≤ 0 := cmpCanon_le_trans hxb (amendedLT_le hby)
        unfold amendedLT
        rcases lt_or_eq_of_le hxy with h' | h'
        · exact Or.inl h'
        · exact Or.inr ⟨h', hid y (by simp [hy])⟩
    · rw [if_neg h]
      have hbx : cmpCanon b x < 0 := by
        have h1 : ¬ cmpPages x b ≤ 0 := h
        have h2 : cmpPages b x = -cmpPages x b := cmpPages_neg x b
        have h3 : cmpCanon b x = cmpPages b x := (cmpPages_eq_canon hwb hwx).symm
        omega
      refine List.pairwise_cons.mpr
        ⟨?_, ih (fun p hp => hwl p (by simp [hp])) (fun p hp => hid p (by simp [hp]))
          (List.Pairwise.of_cons hl)⟩
      intro y hy
      rcases (List.mem_orderedInsert cmpLE).mp hy with rfl | hy
      · exact Or.inl hbx
      · exact (List.pairwise_cons.mp hl).1 y hy

/-- The sorted list is `amendedLT`-sorted when the input is in creation
order with well-formed labels. -/
theorem pairwise_sortPages (ps : List Page)
    (hw : ∀ p ∈ ps, labelWF p = true)
    (hid : ps.Pairwise fun a b => a.id < b.id) :
    (sortPages ps).Pairwise amendedLT := by
  induction ps with
  | nil => simp [sortPages, List.insertionSort]
  | cons x xs ih =>
    rw [sortPages, List.insertionSort]
    refine pairwise_orderedInsert_amended x _ (hw x (by simp)) ?_ ?_
      (ih (fun p hp => hw p (by simp [hp])) (List.Pairwise.of_cons hid))
    · intro p hp
      exact hw p (List.mem_cons.mpr (Or.inr ((List.mem_insertionSort cmpLE).mp hp)))
    · intro p hp
      exact (List.pairwise_cons.mp hid).1 p ((List.mem_insertionSort cmpLE).mp hp)

/-- Members of the position-assigned list are position updates of members
of the input. -/
theorem mem_assignPositions {q : Page} : ∀ (i : Nat) (l : List Page),
    q ∈ assignPositions i l → ∃ p ∈ l, ∃ j, q = { p with sortOrder := j }
  | _, [], h => by simp [assignPositions] at h
  | i, p :: ps, h => by
    rw [assignPositions] at h
    rcases List.mem_cons.mp h with h | h
    · exact ⟨p, by simp, i, h⟩
    · obtain ⟨p', hp', j, hq⟩ := mem_assignPositions (i + 1) ps h
      exact ⟨p', by simp [hp'], j, hq⟩

/-- Position assignment preserves any relation that ignores the sort
position. -/
theorem pairwise_assignPositions (R : Page → Page → Prop)
    (hR : ∀ (a b : Page) (i j : Nat),
      R a b → R { a with sortOrder := i } { b with sortOrder := j }) :
    ∀ (i : Nat) (l : List Page), l.Pairwise R → (assignPositions i l).Pairwise R
  | _, [], _ => by simp [assignPositions]
  | i, p :: ps, h => by
    rw [assignPositions]
    obtain ⟨h1, h2⟩ := List.pairwise_cons.mp h
    refine List.pairwise_cons.mpr ⟨?_, pairwise_assignPositions R hR (i + 1) ps h2⟩
    intro q hq
    obtain ⟨p', hp', j, rfl⟩ := mem_assignPositions (i + 1) ps hq
    exact hR p p' i j (h1 p' hp')

/-- The positions written back are consecutive from the start index. -/
theorem assignPositions_map_sortOrder : ∀ (i : Nat) (l : List Page),
    (assignPositions i l).map Page.sortOrder = List.range' i l.length
  | _, [] => by simp [assignPositions]
  | i, p :: ps => by
    rw [assignPositions]
    simp [assignPositions_map_sortOrder (i + 1) ps, List.range'_succ]

/-- C1 (amended): `reorder` permutes the pages and writes back the
contiguous positions `0..n-1`; for pages listed in creation order with
well-formed labels, the resulting order puts labelled pages before
unlabelled ones, unlabelled pages in creation order, digit-labelled pages
in ascending numeric order with ties in creation order — but
Roman-labelled pages, whose labels `parseInt` cannot read, come after all
digit-labelled pages and are ordered by the locale comparison of their
labels (letters case-insensitively alphabetical, a case-only difference
resolved lowercase first), not by numeral value. -/
theorem reorder_total_order (ps : List Page)
    (hw : ∀ p ∈ ps, labelWF p = true)
    (hid : ps.Pairwise fun a b => a.id < b.id) :
    (sortPages ps).Perm ps ∧
    (reorder ps).map Page.sortOrder = List.range ps.length ∧
    (reorder ps).Pairwise amendedLT := by
  refine ⟨List.perm_insertionSort cmpLE ps, ?_, ?_⟩
  · rw [reorder, assignPositions_map_sortOrder, List.range_eq_range']
    congr 1
    exact List.length_insertionSort cmpLE ps
  · rw [reorder]
    exact pairwise_assignPositions amendedLT (fun a b i j h => h) 0 _
      (pairwise_sortPages ps hw hid)

/-- C1 witness: a concrete three-page project (labels `3`, `ix`, none). -/
theorem reorder_total_order_witness :
    (∀ p ∈ [{ samplePage with id := 1, detectedPageNumber := some "3" },
            { samplePage with id := 2, detectedPageNumber := some "ix" },
            { samplePage with id := 3 }], labelWF p = true) ∧
    ([{ samplePage with id := 1, detectedPageNumber := some "3" },
      { samplePage with id := 2, detectedPageNumber := some "ix" },
      { samplePage with id := 3 }].Pairwise fun a b => a.id < b.id) ∧
    ((sortPages [{ samplePage with id := 1, detectedPageNumber := some "3" },
        { samplePage with id := 2, detectedPageNumber := some "ix" },
        { samplePage with id := 3 }]).Perm
      [{ samplePage with id := 1, detectedPageNumber := some "3" },
       { samplePage with id := 2, detectedPageNumber := some "ix" },
       { samplePage with id := 3 }] ∧
     (reorder [{ samplePage with id := 1, detectedPageNumber := some "3" },
        { samplePage with id := 2, detectedPageNumber := some "ix" },
        { samplePage with id := 3 }]).map Page.sortOrder =
       List.range 3 ∧
     (reorder [{ samplePage with id := 1, detectedPageNumber := some "3" },
        { samplePage with id := 2, detectedPageNumber := some "ix" },
        { samplePage with id := 3 }]).Pairwise amendedLT) := by
  refine ⟨?_, ?_, ?_⟩
  · decide
  · refine List.Pairwise.cons ?_ (List.Pairwise.cons ?_ (List.pairwise_singleton _ _)) <;>
      simp [samplePage]
  · exact reorder_total_order _ (by decide)
      (List.Pairwise.cons (by simp [samplePage])
        (List.Pairwise.cons (by simp [samplePage]) (List.pairwise_singleton _ _)))

/-- Totality of the comparator's non-strict order. -/
theorem cmpLE_total {a b : Page} (h : ¬ cmpLE a b) : cmpLE b a := by
  unfold cmpLE at *
  have hn := cmpPages_neg a b
  omega

/-- Ordered insertion preserves local sortedness under the comparator. -/
theorem chain'_orderedInsert (x : Page) : ∀ l : List Page, l.Chain' cmpLE →
    (List.orderedInsert cmpLE x l).Chain' cmpLE
  | [], _ => by simp [List.orderedInsert]
  | b :: t, hl => by
    rw [List.orderedInsert]
    by_cases h : cmpLE x b
    · rw [if_pos h]
      exact List.chain'_cons.mpr ⟨h, hl⟩
    · rw [if_neg h]
      have hrec := chain'_orderedInsert x t (List.Chain'.tail hl)
      refine List.chain'_cons'.mpr ⟨?_, hrec⟩
      intro y hy
      cases t with
      | nil =>
        simp [List.orderedInsert] at hy
        subst hy
        exact cmpLE_total h
      | cons c t' =>
        rw [List.orderedInsert] at hy
        by_cases h2 : cmpLE x c
        · rw [if_pos h2] at hy
          simp at hy
          subst hy
          exact cmpLE_total h
        · rw [if_neg h2] at hy
          simp at hy
          subst hy
          exact List.chain'_cons.mp hl |>.1
    termination_by l => l.length

/-- The sorted list is locally sorted. -/
theorem chain'_sortPages : ∀ l : List Page, (sortPages l).Chain' cmpLE
  | [] => by simp [sortPages, List.insertionSort]
  | x :: xs => by
    rw [sortPages, List.insertionSort]
    exact chain'_orderedInsert x _ (chain'_sortPages xs)

/-- Insertion sort leaves a locally sorted list unchanged. -/
theorem insertionSort_eq_of_chain' : ∀ l : List Page, l.Chain' cmpLE →
    List.insertionSort cmpLE l = l
  | [], _ => rfl
  | x :: t, h => by
    rw [List.insertionSort, insertionSort_eq_of_chain' t (List.Chain'.tail h)]
    cases t with
    | nil => rfl
    | cons b t' =>
      rw [List.orderedInsert, if_pos (List.chain'_cons.mp h).1]

/-- Position assignment keeps local sortedness: the comparator reads only
the label and the identity, which the update leaves unchanged. -/
theorem chain'_assignPositions : ∀ (i : Nat) (l : List Page), l.Chain' cmpLE →
    (assignPositions i l).Chain' cmpLE
  | _, [], _ => by simp [assignPositions]
  | _, [_], _ => by simp [assignPositions]
  | i, p :: q :: t, h => by
    have h1 : cmpLE p q := (List.chain'_cons.mp h).1
    have h2 := chain'_assignPositions (i + 1) (q :: t) (List.chain'_cons.mp h).2
    show List.Chain' cmpLE
      ({ p with sortOrder := i } :: { q with sortOrder := i + 1 } ::
        assignPositions (i + 2) t)
    exact List.chain'_cons.mpr ⟨h1, h2⟩

/-- Re-assigning the same positions is a fixed point. -/
theorem assignPositions_idem : ∀ (i : Nat) (l : List Page),
    assignPositions i (assignPositions i l) = assignPositions i l
  | _, [] => rfl
  | i, p :: ps => by
    simp [assignPositions, assignPositions_idem (i + 1) ps]

/-- C9: `reorder` is idempotent — reordering the output of a reorder
reproduces exactly the same page list and sort-position assignment. -/
theorem reorder_idempotent (ps : List Page) : reorder (reorder ps) = reorder ps := by
  show assignPositions 0 (sortPages (assignPositions 0 (sortPages ps))) =
    assignPositions 0 (sortPages ps)
  have h1 : (assignPositions 0 (sortPages ps)).Chain' cmpLE :=
    chain'_assignPositions 0 _ (chain'_sortPages ps)
  have h2 : sortPages (assignPositions 0 (sortPages ps)) =
      assignPositions 0 (sortPages ps) := insertionSort_eq_of_chain' _ h1
  rw [h2, assignPositions_idem]

end BookPages
